import Mathlib

/-!
Verification of the connection-multiplexing and pooling layer of
react-native-nitro-net.

The development shallowly embeds, in Lean, the components the audited
claims are about:

- the ConnectionRegistry (NetManager in the C++ layer): a map from
  connection ids to event handlers with register/unregister/dispatch;
- the socket driver destruction paths (HybridNetSocketDriver);
- the HTTP Agent connection pool (addRequest / releaseSocket /
  _removeSocket and getName in src/src/http.ts);
- the JS feed loops around the HTTP parser and their CONNECT/101
  handling (Server._setupHttpConnection and
  ClientRequest._attachSocketListeners in src/src/http.ts);
- the net.Server CONNECTION-event handler and maxConnections setter
  (src/src/net.ts).

Effectful code is embedded as explicit state passing: each operation
returns its successor state together with a trace of the externally
visible actions (handler invocations, native commands, emitted events).
-/

namespace NitroNet

/-! ### Association-list helpers

JS Records and the C++ unordered_map are modelled as association lists
with unique keys left implicit: lookup returns the first binding, set
replaces the first binding or appends, delete removes the first binding.
-/

def alistGet {κ α : Type} [DecidableEq κ] (t : List (κ × α)) (k : κ) : Option α :=
  match t with
  | [] => none
  | (k0, v) :: rest => if k0 = k then some v else alistGet rest k

def alistSet {κ α : Type} [DecidableEq κ] (t : List (κ × α)) (k : κ) (v : α) :
    List (κ × α) :=
  match t with
  | [] => [(k, v)]
  | (k0, v0) :: rest =>
      if k0 = k then (k, v) :: rest else (k0, v0) :: alistSet rest k v

def alistDel {κ α : Type} [DecidableEq κ] (t : List (κ × α)) (k : κ) :
    List (κ × α) :=
  match t with
  | [] => []
  | (k0, v0) :: rest => if k0 = k then rest else (k0, v0) :: alistDel rest k

/-! ### ConnectionRegistry (NetManager, C++ layer)

Handlers are opaque capability tokens; we model them as natural numbers.
The handler map mirrors the unordered_map uint32_t to EventHandler.
-/

/-- Opaque handler capability installed for a connection id. -/
abbrev Handler := Nat

/-- The registry handler map: connection id to handler. -/
abbrev HandlerMap := List (Nat × Handler)

/-- NetManager::registerHandler: installs the handler for the id,
overwriting any previous registration. -/
def registerHandler (m : HandlerMap) (id : Nat) (h : Handler) : HandlerMap :=
  alistSet m id h

/-- NetManager::unregisterHandler: erases the binding for the id;
erasing an absent id leaves the map as is. -/
def unregisterHandler (m : HandlerMap) (id : Nat) : HandlerMap :=
  alistDel m id

/-- Lookup performed by NetManager::dispatch under the shared lock. -/
def findHandler (m : HandlerMap) (id : Nat) : Option Handler :=
  alistGet m id

/-- NetManager::dispatch: copies the handler reference out under a shared
lock, then invokes it outside the lock.  The result records the
invocation performed (handler, event type, payload), if any, together
with the handler map after the call; the lookup itself never mutates the
map. -/
def dispatch (m : HandlerMap) (id : Nat) (eventType : Nat) (payload : List Nat) :
    Option (Handler × Nat × List Nat) × HandlerMap :=
  match findHandler m id with
  | some h => (some (h, eventType, payload), m)
  | none => (none, m)

/-- One registry mutation, as issued by driver construction/destruction. -/
inductive RegOp
  | register (id : Nat) (h : Handler)
  | unregister (id : Nat)
deriving DecidableEq, Repr

/-- Applies a single register/unregister call to the handler map. -/
def applyRegOp (m : HandlerMap) : RegOp → HandlerMap
  | RegOp.register id h => registerHandler m id h
  | RegOp.unregister id => unregisterHandler m id

/-- Applies a sequence of register/unregister calls in order. -/
def applyRegOps (m : HandlerMap) (ops : List RegOp) : HandlerMap :=
  ops.foldl applyRegOp m

/-- C1: for every connection id with no currently registered handler,
dispatch invokes no handler and leaves the handler map unchanged (and in
the embedding it is total, hence throws nothing); this holds for the
state reached after any sequence of register/unregister calls. -/
theorem dispatch_unregistered_is_silent_noop
    (ops : List RegOp) (id eventType : Nat) (payload : List Nat)
    (habsent : findHandler (applyRegOps [] ops) id = none) :
    dispatch (applyRegOps [] ops) id eventType payload =
      (none, applyRegOps [] ops) := by
  simp [dispatch, habsent]

/-- Witness for C1: a register immediately followed by an unregister of
the same id (the unregister happening just before the queued event
arrives), after which dispatch of a CLOSE event (type 4) is a silent
no-op. -/
theorem dispatch_unregistered_is_silent_noop_witness :
    findHandler (applyRegOps [] [RegOp.register 1 7, RegOp.unregister 1]) 1 = none ∧
    dispatch (applyRegOps [] [RegOp.register 1 7, RegOp.unregister 1]) 1 4 [9] =
      (none, applyRegOps [] [RegOp.register 1 7, RegOp.unregister 1]) :=
  ⟨by decide,
   dispatch_unregistered_is_silent_noop [RegOp.register 1 7, RegOp.unregister 1] 1 4 [9]
     (by decide)⟩

/-! ### Socket driver destruction paths (HybridNetSocketDriver, C++ layer)

The driver holds the native connection id; a live driver has a nonzero
id and destruction zeroes it.  Each destruction path is embedded as a
state transition returning the ordered trace of commands it issues.
-/

/-- One command issued by the driver towards the registry or the native
transport layer. -/
inductive DriverCmd
  | unregisterHandler (id : Nat)
  | netDestroySocket (id : Nat)
  | netSocketResetAndDestroy (id : Nat)
deriving DecidableEq, Repr

/-- Returns true on the registry unregistration command. -/
def DriverCmd.isUnregisterCmd : DriverCmd → Bool
  | DriverCmd.unregisterHandler _ => true
  | _ => false

/-- Returns true on a command that releases the native transport
resources of the connection. -/
def DriverCmd.isNativeDestroyCmd : DriverCmd → Bool
  | DriverCmd.netDestroySocket _ => true
  | DriverCmd.netSocketResetAndDestroy _ => true
  | _ => false

/-- State of a HybridNetSocketDriver: the native id, zero once the
driver has been destroyed. -/
structure SocketDriver where
  id : Nat
deriving DecidableEq, Repr

/-- HybridNetSocketDriver::destroy: when the id is nonzero, unregisters
the handler, then issues the native destroy command, then zeroes the id;
otherwise does nothing. -/
def SocketDriver.destroy (d : SocketDriver) : SocketDriver × List DriverCmd :=
  if d.id ≠ 0 then
    (⟨0⟩, [DriverCmd.unregisterHandler d.id, DriverCmd.netDestroySocket d.id])
  else
    (d, [])

/-- HybridNetSocketDriver::resetAndDestroy: when the id is nonzero,
issues the native reset-and-destroy command first, then unregisters the
handler, then zeroes the id; otherwise does nothing. -/
def SocketDriver.resetAndDestroy (d : SocketDriver) : SocketDriver × List DriverCmd :=
  if d.id ≠ 0 then
    (⟨0⟩, [DriverCmd.netSocketResetAndDestroy d.id, DriverCmd.unregisterHandler d.id])
  else
    (d, [])

/-- Counterexample to C6: on the resetAndDestroy path of a live driver
(native id 5), the native destroy command sits at index 0 of the issued
trace and the registry unregistration at index 1, so the unregistration
happens after - not before - the native destroy command. -/
theorem resetAndDestroy_unregisters_after_native_destroy :
    (SocketDriver.resetAndDestroy ⟨5⟩).2.findIdx? DriverCmd.isNativeDestroyCmd = some 0 ∧
    (SocketDriver.resetAndDestroy ⟨5⟩).2.findIdx? DriverCmd.isUnregisterCmd = some 1 ∧
    ¬ (1 : Nat) < 0 := by
  refine ⟨by decide, by decide, by decide⟩

/-- C6 amended: destroy() unregisters the id strictly before issuing the
native destroy command, while resetAndDestroy() issues the native
reset-and-destroy command strictly before unregistering; both paths
fire only on a live driver and zero the id. -/
theorem destroy_paths_command_order (d : SocketDriver) (hlive : d.id ≠ 0) :
    (SocketDriver.destroy d).2.findIdx? DriverCmd.isUnregisterCmd = some 0 ∧
    (SocketDriver.destroy d).2.findIdx? DriverCmd.isNativeDestroyCmd = some 1 ∧
    (SocketDriver.resetAndDestroy d).2.findIdx? DriverCmd.isNativeDestroyCmd = some 0 ∧
    (SocketDriver.resetAndDestroy d).2.findIdx? DriverCmd.isUnregisterCmd = some 1 ∧
    (SocketDriver.destroy d).1.id = 0 ∧
    (SocketDriver.resetAndDestroy d).1.id = 0 := by
  simp [SocketDriver.destroy, SocketDriver.resetAndDestroy, hlive,
    List.findIdx?, DriverCmd.isUnregisterCmd, DriverCmd.isNativeDestroyCmd]

/-- Witness for the amended C6 at a live driver with native id 5. -/
theorem destroy_paths_command_order_witness :
    (SocketDriver.destroy ⟨5⟩).2.findIdx? DriverCmd.isUnregisterCmd = some 0 ∧
    (SocketDriver.destroy ⟨5⟩).2.findIdx? DriverCmd.isNativeDestroyCmd = some 1 ∧
    (SocketDriver.resetAndDestroy ⟨5⟩).2.findIdx? DriverCmd.isNativeDestroyCmd = some 0 ∧
    (SocketDriver.resetAndDestroy ⟨5⟩).2.findIdx? DriverCmd.isUnregisterCmd = some 1 ∧
    (SocketDriver.destroy ⟨5⟩).1.id = 0 ∧
    (SocketDriver.resetAndDestroy ⟨5⟩).1.id = 0 :=
  destroy_paths_command_order ⟨5⟩ (by decide)

/-! ### Socket._destroy (src/src/net.ts) -/

/-- The Socket fields touched by Socket._destroy: the connection flags
and the optional driver. -/
structure SocketState where
  connected : Bool
  connecting : Bool
  destroyed : Bool
  driver : Option SocketDriver
deriving DecidableEq, Repr

/-- Socket._destroy: clears the connection flags, marks the socket
destroyed, and when a driver is still attached calls driver.destroy()
and drops the reference.  Returns the issued driver commands. -/
def socketDestroyStep (s : SocketState) : SocketState × List DriverCmd :=
  let s1 : SocketState :=
    { connected := false, connecting := false, destroyed := true,
      driver := s.driver }
  match s.driver with
  | some d => ({ s1 with driver := none }, (SocketDriver.destroy d).2)
  | none => (s1, [])

/-- C9: a second destroy() on the same adapter is a no-op - it issues no
registry unregistration and no native destroy command (hence triggers no
dispatch, no event, and no pool-counter movement) and leaves every field
exactly as the first call left it; likewise unregisterHandler on an
absent id leaves the handler map unchanged (and in the embedding it is
total, hence raises nothing). -/
theorem destroy_twice_second_noop
    (s : SocketState) (m : HandlerMap) (id : Nat)
    (habsent : findHandler m id = none) :
    socketDestroyStep (socketDestroyStep s).1 = ((socketDestroyStep s).1, []) ∧
    unregisterHandler m id = m := by
  constructor
  · cases hd : s.driver <;> simp [socketDestroyStep, hd]
  · induction m with
    | nil => rfl
    | cons kv rest ih =>
        obtain ⟨k, v⟩ := kv
        by_cases hk : k = id
        · subst hk
          simp [findHandler, alistGet] at habsent
        · simp [findHandler, alistGet, hk] at habsent
          simpa [unregisterHandler, alistDel, hk] using
            congrArg (List.cons (k, v)) (ih habsent)

/-- Witness for C9: a connected socket holding the live driver 5 is
destroyed twice - the second call is a no-op - and unregistering the
absent id 42 from a one-entry handler map leaves the map unchanged. -/
theorem destroy_twice_second_noop_witness :
    socketDestroyStep
        (socketDestroyStep ⟨true, false, false, some ⟨5⟩⟩).1 =
      ((socketDestroyStep ⟨true, false, false, some ⟨5⟩⟩).1, []) ∧
    unregisterHandler [(1, 7)] 42 = [(1, 7)] :=
  destroy_twice_second_noop ⟨true, false, false, some ⟨5⟩⟩ [(1, 7)] 42 (by decide)

/-! ### Agent connection pool (src/src/http.ts)

Sockets and requests are identified by natural numbers; pool keys are
the strings produced by Agent.getName.  JS Records become association
lists, JS arrays become Lean lists (push appends at the tail, pop takes
the last element, shift takes the head).  The JS number _totalSockets is
embedded as an Int so that the decrements are exact.
-/

/-- Scheduling policy of the agent. -/
inductive Sched
  | fifo
  | lifo
deriving DecidableEq, Repr

/-- The Agent configuration fields the pool algorithms read.  The two
connection caps default to Infinity in the source; an absent value
models Infinity. -/
structure Agent where
  maxSockets : Option Nat
  maxTotalSockets : Option Nat
  maxFreeSockets : Nat
  keepAlive : Bool
  scheduling : Sched
deriving DecidableEq, Repr

/-- Comparison of a count against a possibly-infinite cap, mirroring a
JS less-than against a number that may be Infinity. -/
def ltCap (x : Int) (cap : Option Nat) : Bool :=
  match cap with
  | none => true
  | some c => x < (c : Int)

/-- The pool bookkeeping of an Agent: per-key active sockets, per-key
free sockets, per-key waiting requests, and the global socket counter. -/
structure PoolState where
  sockets : List (String × List Nat)
  freeSockets : List (String × List Nat)
  requests : List (String × List Nat)
  totalSockets : Int
deriving DecidableEq, Repr

/-- The empty pool of a freshly constructed Agent. -/
def emptyPool : PoolState := ⟨[], [], [], 0⟩

/-- Takes one socket from a free list according to the scheduling
policy: pop of the most recently freed entry under lifo, shift of the
oldest under fifo.  Returns the socket and the remaining list, or
nothing when the list is empty. -/
def takeByPolicy (sched : Sched) (l : List Nat) : Option (Nat × List Nat) :=
  match sched, l with
  | _, [] => none
  | Sched.fifo, x :: rest => some (x, rest)
  | Sched.lifo, l => l.getLast?.map (fun s => (s, l.dropLast))

/-- Outcome of Agent.addRequest for the request. -/
inductive Grant
  | reused (sock : Nat)
  | newConnection
  | queued
deriving DecidableEq, Repr

/-- Agent.addRequest: (1) when the free list of the key is non-empty,
removes one socket by policy, pushes it onto the active list (deleting
the free entry when it empties) and grants it synchronously; (2)
otherwise, when the active list is below maxSockets and the counter is
below maxTotalSockets, increments the counter and signals the request
to establish a new connection; (3) otherwise appends the request at the
tail of the waiting queue of the key. -/
def addRequest (ag : Agent) (st : PoolState) (req : Nat) (name : String) :
    PoolState × Grant :=
  match takeByPolicy ag.scheduling ((alistGet st.freeSockets name).getD []) with
  | some (sock, rest) =>
      let fs :=
        if rest.isEmpty then alistDel st.freeSockets name
        else alistSet st.freeSockets name rest
      let acts := (alistGet st.sockets name).getD []
      ({ st with freeSockets := fs,
                 sockets := alistSet st.sockets name (acts ++ [sock]) },
       Grant.reused sock)
  | none =>
      if ltCap (((alistGet st.sockets name).getD []).length : Int) ag.maxSockets
          && ltCap st.totalSockets ag.maxTotalSockets then
        let socks :=
          match alistGet st.sockets name with
          | none => alistSet st.sockets name []
          | some _ => st.sockets
        ({ st with sockets := socks, totalSockets := st.totalSockets + 1 },
         Grant.newConnection)
      else
        let reqs := alistSet st.requests name (((alistGet st.requests name).getD []) ++ [req])
        ({ st with requests := reqs }, Grant.queued)

/-- The synchronous tail of a new-connection grant: Agent.createConnection
pushes the freshly created socket onto the active list of the key before
returning. -/
def createConnectionPush (st : PoolState) (sock : Nat) (name : String) :
    PoolState :=
  let socks := alistSet st.sockets name (((alistGet st.sockets name).getD []) ++ [sock])
  { st with sockets := socks }

/-- Removal of the first occurrence of a socket from a JS array,
mirroring indexOf followed by splice. -/
def listRemoveFirst (l : List Nat) (x : Nat) : List Nat :=
  match l with
  | [] => []
  | y :: rest => if y = x then rest else y :: listRemoveFirst rest x

/-- Agent.keepSocketAlive: the base Agent always keeps the socket
alive. -/
def keepSocketAlive (_sock : Nat) : Bool := true

/-- Outcome of Agent.releaseSocket for the released socket. -/
inductive ReleaseAction
  | handedToWaiter (req : Nat)
  | pooledFree
  | closedSocket
deriving DecidableEq, Repr

/-- Agent.releaseSocket: removes the socket from the active list of the
key (deleting the entry when it empties); then, when the waiting queue
of the key is non-empty, shifts the head waiter, pushes the socket back
onto the active list and hands it to that waiter; otherwise, when
keepAlive holds and the free list is below maxFreeSockets, pushes the
socket onto the free list, and otherwise decrements the counter and
closes the socket. -/
def releaseSocket (ag : Agent) (st : PoolState) (sock : Nat) (name : String) :
    PoolState × ReleaseAction :=
  let st1 :=
    match alistGet st.sockets name with
    | some l =>
        let l1 := listRemoveFirst l sock
        if l1.isEmpty then { st with sockets := alistDel st.sockets name }
        else { st with sockets := alistSet st.sockets name l1 }
    | none => st
  match alistGet st1.requests name with
  | some (req :: restq) =>
      let st2 :=
        if restq.isEmpty then { st1 with requests := alistDel st1.requests name }
        else { st1 with requests := alistSet st1.requests name restq }
      let socks := alistSet st2.sockets name (((alistGet st2.sockets name).getD []) ++ [sock])
      ({ st2 with sockets := socks }, ReleaseAction.handedToWaiter req)
  | _ =>
      if ag.keepAlive && keepSocketAlive sock then
        let freeL := (alistGet st1.freeSockets name).getD []
        if freeL.length < ag.maxFreeSockets then
          ({ st1 with freeSockets := alistSet st1.freeSockets name (freeL ++ [sock]) },
           ReleaseAction.pooledFree)
        else
          ({ st1 with totalSockets := st1.totalSockets - 1 },
           ReleaseAction.closedSocket)
      else
        ({ st1 with totalSockets := st1.totalSockets - 1 },
         ReleaseAction.closedSocket)

/-- Agent._removeSocket: the close/error path of a pooled socket removes
it from the active list and from the free list of the key, decrementing
the counter once per list it was actually removed from. -/
def removeSocketOnClose (st : PoolState) (sock : Nat) (name : String) :
    PoolState :=
  let st1 :=
    match alistGet st.sockets name with
    | some l =>
        if sock ∈ l then
          { st with sockets := alistSet st.sockets name (listRemoveFirst l sock),
                    totalSockets := st.totalSockets - 1 }
        else st
    | none => st
  match alistGet st1.freeSockets name with
  | some l =>
      if sock ∈ l then
        { st1 with freeSockets := alistSet st1.freeSockets name (listRemoveFirst l sock),
                   totalSockets := st1.totalSockets - 1 }
      else st1
  | none => st1

/-! ### Association-list lemmas -/

/-- Keys of a JS Record are pairwise distinct; the embedding carries
this as an explicit well-formedness predicate. -/
def keysNodup {κ α : Type} (t : List (κ × α)) : Prop :=
  (t.map Prod.fst).Nodup

instance {κ α : Type} [DecidableEq κ] (t : List (κ × α)) :
    Decidable (keysNodup t) := by
  unfold keysNodup; infer_instance

theorem alistGet_set_self {κ α : Type} [DecidableEq κ]
    (t : List (κ × α)) (k : κ) (v : α) :
    alistGet (alistSet t k v) k = some v := by
  induction t with
  | nil => simp [alistSet, alistGet]
  | cons kv rest ih =>
      obtain ⟨k0, v0⟩ := kv
      by_cases h : k0 = k <;> simp [alistSet, alistGet, h, ih]

theorem alistGet_set_ne {κ α : Type} [DecidableEq κ]
    (t : List (κ × α)) (k k' : κ) (v : α) (h : k ≠ k') :
    alistGet (alistSet t k v) k' = alistGet t k' := by
  induction t with
  | nil => simp [alistSet, alistGet, h]
  | cons kv rest ih =>
      obtain ⟨k0, v0⟩ := kv
      by_cases h0 : k0 = k
      · subst h0; simp [alistSet, alistGet, h]
      · simp [alistSet, alistGet, h0, ih]

theorem alistGet_del_ne {κ α : Type} [DecidableEq κ]
    (t : List (κ × α)) (k k' : κ) (h : k ≠ k') :
    alistGet (alistDel t k) k' = alistGet t k' := by
  induction t with
  | nil => simp [alistDel]
  | cons kv rest ih =>
      obtain ⟨k0, v0⟩ := kv
      by_cases h0 : k0 = k
      · subst h0; simp [alistDel, alistGet, h]
      · simp [alistDel, alistGet, h0, ih]

theorem alistGet_eq_none_of_not_mem_keys {κ α : Type} [DecidableEq κ]
    (t : List (κ × α)) (k : κ) (h : k ∉ t.map Prod.fst) :
    alistGet t k = none := by
  induction t with
  | nil => rfl
  | cons kv rest ih =>
      obtain ⟨k0, v0⟩ := kv
      simp only [List.map_cons, List.mem_cons, not_or] at h
      by_cases h0 : k0 = k
      · exact absurd h0.symm h.1
      · simp [alistGet, h0, ih h.2]

theorem alistGet_del_self {κ α : Type} [DecidableEq κ]
    (t : List (κ × α)) (k : κ) (h : keysNodup t) :
    alistGet (alistDel t k) k = none := by
  induction t with
  | nil => rfl
  | cons kv rest ih =>
      obtain ⟨k0, v0⟩ := kv
      unfold keysNodup at h
      simp only [List.map_cons, List.nodup_cons] at h
      by_cases h0 : k0 = k
      · subst h0
        simpa [alistDel] using alistGet_eq_none_of_not_mem_keys rest k0 h.1
      · simp [alistDel, alistGet, h0, ih h.2]

/-! ### Pool accessors: the three per-key lists a caller observes -/

/-- Active sockets currently leased for a key. -/
def activeOf (st : PoolState) (name : String) : List Nat :=
  (alistGet st.sockets name).getD []

/-- Idle reusable sockets for a key. -/
def freeOf (st : PoolState) (name : String) : List Nat :=
  (alistGet st.freeSockets name).getD []

/-- Queued waiting requests for a key. -/
def waitersOf (st : PoolState) (name : String) : List Nat :=
  (alistGet st.requests name).getD []

theorem takeByPolicy_lifo_concat (rest : List Nat) (s : Nat) :
    takeByPolicy Sched.lifo (rest ++ [s]) = some (s, rest) := by
  cases rest with
  | nil => simp [takeByPolicy]
  | cons a t =>
      rw [List.cons_append]
      simp only [takeByPolicy]
      rw [← List.cons_append, List.getLast?_concat, List.dropLast_concat]
      rfl

/-- C3: Agent.addRequest follows exactly the three-step acquire
algorithm: (1) with a non-empty free list it removes the most recently
freed socket under lifo (respectively the oldest under fifo), moves it
to the active list and grants it synchronously, leaving counter and
waiters untouched; (2) with an empty free list and both caps open it
increments the total counter and signals a new connection, touching no
list; (3) otherwise it appends the request at the tail of the waiting
queue, touching nothing else. -/
theorem addRequest_three_step_algorithm
    (ag : Agent) (st : PoolState) (req : Nat) (name : String)
    (hnodup : keysNodup st.freeSockets) :
    (∀ s rest, ag.scheduling = Sched.lifo → freeOf st name = rest ++ [s] →
      (addRequest ag st req name).2 = Grant.reused s ∧
      activeOf (addRequest ag st req name).1 name = activeOf st name ++ [s] ∧
      freeOf (addRequest ag st req name).1 name = rest ∧
      (addRequest ag st req name).1.totalSockets = st.totalSockets ∧
      waitersOf (addRequest ag st req name).1 name = waitersOf st name) ∧
    (∀ s rest, ag.scheduling = Sched.fifo → freeOf st name = s :: rest →
      (addRequest ag st req name).2 = Grant.reused s ∧
      activeOf (addRequest ag st req name).1 name = activeOf st name ++ [s] ∧
      freeOf (addRequest ag st req name).1 name = rest ∧
      (addRequest ag st req name).1.totalSockets = st.totalSockets ∧
      waitersOf (addRequest ag st req name).1 name = waitersOf st name) ∧
    (freeOf st name = [] →
      ltCap ((activeOf st name).length : Int) ag.maxSockets = true →
      ltCap st.totalSockets ag.maxTotalSockets = true →
      (addRequest ag st req name).2 = Grant.newConnection ∧
      (addRequest ag st req name).1.totalSockets = st.totalSockets + 1 ∧
      activeOf (addRequest ag st req name).1 name = activeOf st name ∧
      freeOf (addRequest ag st req name).1 name = [] ∧
      waitersOf (addRequest ag st req name).1 name = waitersOf st name) ∧
    (freeOf st name = [] →
      (ltCap ((activeOf st name).length : Int) ag.maxSockets &&
        ltCap st.totalSockets ag.maxTotalSockets) = false →
      (addRequest ag st req name).2 = Grant.queued ∧
      waitersOf (addRequest ag st req name).1 name = waitersOf st name ++ [req] ∧
      (addRequest ag st req name).1.totalSockets = st.totalSockets ∧
      activeOf (addRequest ag st req name).1 name = activeOf st name ∧
      freeOf (addRequest ag st req name).1 name = []) := by
  refine ⟨?_, ?_, ?_, ?_⟩
  · intro s rest hsched hfree
    have htake : takeByPolicy ag.scheduling ((alistGet st.freeSockets name).getD [])
        = some (s, rest) := by
      rw [hsched]
      unfold freeOf at hfree
      rw [hfree]
      exact takeByPolicy_lifo_concat rest s
    by_cases hrest : rest = []
    · subst hrest
      simp [addRequest, htake, activeOf, freeOf, waitersOf, alistGet_set_self,
        alistGet_del_self st.freeSockets name hnodup]
    · have hne : rest.isEmpty = false := by simpa [List.isEmpty_iff] using hrest
      simp [addRequest, htake, hne, activeOf, freeOf, waitersOf, alistGet_set_self]
  · intro s rest hsched hfree
    have htake : takeByPolicy ag.scheduling ((alistGet st.freeSockets name).getD [])
        = some (s, rest) := by
      rw [hsched]
      unfold freeOf at hfree
      rw [hfree]
      simp [takeByPolicy]
    by_cases hrest : rest = []
    · subst hrest
      simp [addRequest, htake, activeOf, freeOf, waitersOf, alistGet_set_self,
        alistGet_del_self st.freeSockets name hnodup]
    · have hne : rest.isEmpty = false := by simpa [List.isEmpty_iff] using hrest
      simp [addRequest, htake, hne, activeOf, freeOf, waitersOf, alistGet_set_self]
  · intro hfree hcap1 hcap2
    have htake : takeByPolicy ag.scheduling ((alistGet st.freeSockets name).getD [])
        = none := by
      unfold freeOf at hfree
      rw [hfree]
      cases ag.scheduling <;> simp [takeByPolicy]
    have htake0 : takeByPolicy ag.scheduling [] = none := by
      cases ag.scheduling <;> simp [takeByPolicy]
    unfold activeOf at hcap1
    unfold freeOf at hfree
    cases hs : alistGet st.sockets name with
    | none =>
        simp only [hs, Option.getD_none, List.length_nil, Nat.cast_zero] at hcap1
        simp [addRequest, htake, hs, hcap1, hcap2, activeOf, freeOf, waitersOf,
          alistGet_set_self, hfree, htake0]
    | some l =>
        simp only [hs, Option.getD_some] at hcap1
        simp [addRequest, htake, hs, hcap1, hcap2, activeOf, freeOf, waitersOf, hfree, htake0]
  · intro hfree hcaps
    have htake : takeByPolicy ag.scheduling ((alistGet st.freeSockets name).getD [])
        = none := by
      unfold freeOf at hfree
      rw [hfree]
      cases ag.scheduling <;> simp [takeByPolicy]
    have htake0 : takeByPolicy ag.scheduling [] = none := by
      cases ag.scheduling <;> simp [takeByPolicy]
    unfold activeOf at hcaps
    unfold freeOf at hfree
    rw [Bool.and_eq_false_iff] at hcaps
    have hcond : ¬ (ltCap (((alistGet st.sockets name).getD []).length : Int) ag.maxSockets = true ∧
        ltCap st.totalSockets ag.maxTotalSockets = true) := by
      rcases hcaps with h | h
      · intro hc
        rw [h] at hc
        exact Bool.false_ne_true hc.1
      · intro hc
        rw [h] at hc
        exact Bool.false_ne_true hc.2
    simp [addRequest, htake, htake0, hcond, activeOf, freeOf, waitersOf,
      alistGet_set_self, hfree]

/-- Witness for C3: a lifo agent with free list [10, 11] for key k
grants 11 (the most recently freed), moving it onto the active list
[7]; and the same pool under fifo grants 10 (the oldest). -/
theorem addRequest_three_step_algorithm_witness :
    ((addRequest ⟨none, none, 256, true, Sched.lifo⟩
        ⟨[("k", [7])], [("k", [10, 11])], [], 3⟩ 1 "k").2 = Grant.reused 11 ∧
     activeOf (addRequest ⟨none, none, 256, true, Sched.lifo⟩
        ⟨[("k", [7])], [("k", [10, 11])], [], 3⟩ 1 "k").1 "k" = [7, 11] ∧
     freeOf (addRequest ⟨none, none, 256, true, Sched.lifo⟩
        ⟨[("k", [7])], [("k", [10, 11])], [], 3⟩ 1 "k").1 "k" = [10]) ∧
    ((addRequest ⟨none, none, 256, true, Sched.fifo⟩
        ⟨[("k", [7])], [("k", [10, 11])], [], 3⟩ 1 "k").2 = Grant.reused 10) := by
  have hl := (addRequest_three_step_algorithm ⟨none, none, 256, true, Sched.lifo⟩
      ⟨[("k", [7])], [("k", [10, 11])], [], 3⟩ 1 "k" (by decide)).1 11 [10] rfl (by decide)
  have hf := ((addRequest_three_step_algorithm ⟨none, none, 256, true, Sched.fifo⟩
      ⟨[("k", [7])], [("k", [10, 11])], [], 3⟩ 1 "k" (by decide)).2.1) 10 [11] rfl (by decide)
  exact ⟨⟨hl.1, by simpa [activeOf] using hl.2.1, hl.2.2.1⟩, hf.1⟩

/-- C2: Agent.releaseSocket serves waiters first and only then runs the
keep-alive logic.  With a non-empty waiter queue for the key, the head
waiter is dequeued and handed exactly the released socket, which ends up
on the active list and never touches the free list, with the counter
unchanged.  With no waiter: when keepAlive holds and the free list is
below maxFreeSockets the socket is appended to the free list with the
counter unchanged; otherwise the counter is decremented and the socket
is closed, the free list staying as it was. -/
theorem releaseSocket_waiters_first_then_keepalive
    (ag : Agent) (st : PoolState) (sock : Nat) (name : String)
    (hnodupS : keysNodup st.sockets) (hnodupR : keysNodup st.requests) :
    (∀ req restq, waitersOf st name = req :: restq →
      (releaseSocket ag st sock name).2 = ReleaseAction.handedToWaiter req ∧
      activeOf (releaseSocket ag st sock name).1 name =
        listRemoveFirst (activeOf st name) sock ++ [sock] ∧
      waitersOf (releaseSocket ag st sock name).1 name = restq ∧
      freeOf (releaseSocket ag st sock name).1 name = freeOf st name ∧
      (releaseSocket ag st sock name).1.totalSockets = st.totalSockets) ∧
    (waitersOf st name = [] → ag.keepAlive = true →
      (freeOf st name).length < ag.maxFreeSockets →
      (releaseSocket ag st sock name).2 = ReleaseAction.pooledFree ∧
      freeOf (releaseSocket ag st sock name).1 name = freeOf st name ++ [sock] ∧
      activeOf (releaseSocket ag st sock name).1 name =
        listRemoveFirst (activeOf st name) sock ∧
      (releaseSocket ag st sock name).1.totalSockets = st.totalSockets ∧
      waitersOf (releaseSocket ag st sock name).1 name = []) ∧
    (waitersOf st name = [] →
      (ag.keepAlive = false ∨ ag.maxFreeSockets ≤ (freeOf st name).length) →
      (releaseSocket ag st sock name).2 = ReleaseAction.closedSocket ∧
      (releaseSocket ag st sock name).1.totalSockets = st.totalSockets - 1 ∧
      freeOf (releaseSocket ag st sock name).1 name = freeOf st name ∧
      activeOf (releaseSocket ag st sock name).1 name =
        listRemoveFirst (activeOf st name) sock ∧
      waitersOf (releaseSocket ag st sock name).1 name = []) := by
  refine ⟨?_, ?_, ?_⟩
  · intro req restq hw
    have hreq : alistGet st.requests name = some (req :: restq) := by
      unfold waitersOf at hw
      cases hr : alistGet st.requests name with
      | none => rw [hr] at hw; simp at hw
      | some l => rw [hr] at hw; simpa [hw] using hw ▸ rfl
    by_cases hrq : restq = []
    · subst hrq
      cases hs : alistGet st.sockets name with
      | none =>
          simp [releaseSocket, hreq, hs, activeOf, freeOf, waitersOf, alistGet_set_self,
            alistGet_del_self st.requests name hnodupR, listRemoveFirst]
      | some l =>
          by_cases hemp : (listRemoveFirst l sock).isEmpty
          · have hnil : listRemoveFirst l sock = [] := by
              simpa [List.isEmpty_iff] using hemp
            simp [releaseSocket, hreq, hs, hemp, activeOf, freeOf, waitersOf,
              alistGet_set_self, hnil,
              alistGet_del_self st.sockets name hnodupS,
              alistGet_del_self st.requests name hnodupR]
          · have hne : (listRemoveFirst l sock).isEmpty = false := by
              simpa using hemp
            simp [releaseSocket, hreq, hs, hne, activeOf, freeOf, waitersOf,
              alistGet_set_self,
              alistGet_del_self st.requests name hnodupR]
    · have hrqne : restq.isEmpty = false := by simpa [List.isEmpty_iff] using hrq
      cases hs : alistGet st.sockets name with
      | none =>
          simp [releaseSocket, hreq, hs, hrqne, activeOf, freeOf, waitersOf,
            alistGet_set_self, listRemoveFirst]
      | some l =>
          by_cases hemp : (listRemoveFirst l sock).isEmpty
          · have hnil : listRemoveFirst l sock = [] := by
              simpa [List.isEmpty_iff] using hemp
            simp [releaseSocket, hreq, hs, hrqne, hemp, activeOf, freeOf, waitersOf,
              alistGet_set_self, hnil,
              alistGet_del_self st.sockets name hnodupS]
          · have hne : (listRemoveFirst l sock).isEmpty = false := by
              simpa using hemp
            simp [releaseSocket, hreq, hs, hrqne, hne, activeOf, freeOf, waitersOf,
              alistGet_set_self]
  · intro hw hka hcap
    have hreq : alistGet st.requests name = none ∨ alistGet st.requests name = some [] := by
      unfold waitersOf at hw
      cases hr : alistGet st.requests name with
      | none => exact Or.inl rfl
      | some l => rw [hr] at hw; simp at hw; exact Or.inr (by rw [hw])
    have hfcap : ((alistGet st.freeSockets name).getD []).length < ag.maxFreeSockets := hcap
    rcases hreq with hreq | hreq
    · cases hs : alistGet st.sockets name with
      | none =>
          simp [releaseSocket, hreq, hs, hka, keepSocketAlive, hfcap, activeOf,
            freeOf, waitersOf, alistGet_set_self, listRemoveFirst, hw]
      | some l =>
          by_cases hemp : (listRemoveFirst l sock).isEmpty
          · have hnil : listRemoveFirst l sock = [] := by
              simpa [List.isEmpty_iff] using hemp
            simp [releaseSocket, hreq, hs, hemp, hka, keepSocketAlive, hfcap,
              activeOf, freeOf, waitersOf, alistGet_set_self, hnil,
              alistGet_del_self st.sockets name hnodupS, hw]
          · have hne : (listRemoveFirst l sock).isEmpty = false := by
              simpa using hemp
            simp [releaseSocket, hreq, hs, hne, hka, keepSocketAlive, hfcap,
              activeOf, freeOf, waitersOf, alistGet_set_self, hw]
    · cases hs : alistGet st.sockets name with
      | none =>
          simp [releaseSocket, hreq, hs, hka, keepSocketAlive, hfcap, activeOf,
            freeOf, waitersOf, alistGet_set_self, listRemoveFirst, hw]
      | some l =>
          by_cases hemp : (listRemoveFirst l sock).isEmpty
          · have hnil : listRemoveFirst l sock = [] := by
              simpa [List.isEmpty_iff] using hemp
            simp [releaseSocket, hreq, hs, hemp, hka, keepSocketAlive, hfcap,
              activeOf, freeOf, waitersOf, alistGet_set_self, hnil,
              alistGet_del_self st.sockets name hnodupS, hw]
          · have hne : (listRemoveFirst l sock).isEmpty = false := by
              simpa using hemp
            simp [releaseSocket, hreq, hs, hne, hka, keepSocketAlive, hfcap,
              activeOf, freeOf, waitersOf, alistGet_set_self, hw]
  · intro hw hclose
    have hreq : alistGet st.requests name = none ∨ alistGet st.requests name = some [] := by
      unfold waitersOf at hw
      cases hr : alistGet st.requests name with
      | none => exact Or.inl rfl
      | some l => rw [hr] at hw; simp at hw; exact Or.inr (by rw [hw])
    have hcond : (ag.keepAlive && keepSocketAlive sock) = false ∨
        ¬ ((alistGet st.freeSockets name).getD []).length < ag.maxFreeSockets := by
      rcases hclose with h | h
      · exact Or.inl (by simp [h])
      · exact Or.inr (by exact not_lt.mpr h)
    rcases hreq with hreq | hreq <;>
    · cases hs : alistGet st.sockets name with
      | none =>
          rcases hcond with hc | hc
          · simp [releaseSocket, hreq, hs, hc, activeOf, freeOf, waitersOf,
              listRemoveFirst, hw]
          · simp [releaseSocket, hreq, hs, hc, keepSocketAlive, activeOf, freeOf,
              waitersOf, listRemoveFirst, hw]
      | some l =>
          by_cases hemp : (listRemoveFirst l sock).isEmpty
          · have hnil : listRemoveFirst l sock = [] := by
              simpa [List.isEmpty_iff] using hemp
            rcases hcond with hc | hc
            · simp [releaseSocket, hreq, hs, hemp, hc, activeOf, freeOf, waitersOf,
                hnil, alistGet_del_self st.sockets name hnodupS, hw]
            · simp [releaseSocket, hreq, hs, hemp, hc, keepSocketAlive, activeOf,
                freeOf, waitersOf, hnil, alistGet_del_self st.sockets name hnodupS, hw]
          · have hne : (listRemoveFirst l sock).isEmpty = false := by
              simpa using hemp
            rcases hcond with hc | hc
            · simp [releaseSocket, hreq, hs, hne, hc, activeOf, freeOf, waitersOf,
                alistGet_set_self, hw]
            · simp [releaseSocket, hreq, hs, hne, hc, keepSocketAlive, activeOf,
                freeOf, waitersOf, alistGet_set_self, hw]

/-- Witness for C2: key k has active socket 10, a waiter 1 queued and
free socket 11; releasing 10 hands exactly socket 10 to waiter 1, puts
it back on the active list, and leaves the free list untouched. -/
theorem releaseSocket_waiters_first_then_keepalive_witness :
    (releaseSocket ⟨none, none, 256, true, Sched.lifo⟩
        ⟨[("k", [10])], [("k", [11])], [("k", [1])], 2⟩ 10 "k").2 =
      ReleaseAction.handedToWaiter 1 ∧
    activeOf (releaseSocket ⟨none, none, 256, true, Sched.lifo⟩
        ⟨[("k", [10])], [("k", [11])], [("k", [1])], 2⟩ 10 "k").1 "k" = [10] ∧
    freeOf (releaseSocket ⟨none, none, 256, true, Sched.lifo⟩
        ⟨[("k", [10])], [("k", [11])], [("k", [1])], 2⟩ 10 "k").1 "k" = [11] := by
  have h := ((releaseSocket_waiters_first_then_keepalive
      ⟨none, none, 256, true, Sched.lifo⟩
      ⟨[("k", [10])], [("k", [11])], [("k", [1])], 2⟩ 10 "k"
      (by decide) (by decide)).1) 1 [] (by decide)
  refine ⟨h.1, ?_, ?_⟩
  · have := h.2.1
    simpa [activeOf, listRemoveFirst] using this
  · have := h.2.2.2.1
    simpa [freeOf] using this

/-! ### Pool counting invariant (C7) -/

/-- Total number of sockets stored across all keys of a per-key table. -/
def sumSizes (t : List (String × List Nat)) : Nat :=
  (t.map (fun kv => kv.2.length)).sum

theorem sumSizes_alistSet (t : List (String × List Nat)) (k : String) (v : List Nat) :
    sumSizes (alistSet t k v) + ((alistGet t k).getD []).length =
      sumSizes t + v.length := by
  induction t with
  | nil => simp [alistSet, alistGet, sumSizes]
  | cons kv rest ih =>
      obtain ⟨k0, v0⟩ := kv
      by_cases h : k0 = k
      · subst h
        simp [alistSet, alistGet, sumSizes]
        omega
      · simp only [alistSet, alistGet, h, if_false, sumSizes, List.map_cons,
          List.sum_cons]
        have := ih
        simp only [sumSizes] at this
        omega

theorem sumSizes_alistDel (t : List (String × List Nat)) (k : String) :
    sumSizes (alistDel t k) + ((alistGet t k).getD []).length = sumSizes t := by
  induction t with
  | nil => simp [alistDel, alistGet, sumSizes]
  | cons kv rest ih =>
      obtain ⟨k0, v0⟩ := kv
      by_cases h : k0 = k
      · subst h
        simp [alistDel, alistGet, sumSizes]
        omega
      · simp only [alistDel, alistGet, h, if_false, sumSizes, List.map_cons,
          List.sum_cons]
        have := ih
        simp only [sumSizes] at this
        omega

theorem listRemoveFirst_length (l : List Nat) (x : Nat) (h : x ∈ l) :
    (listRemoveFirst l x).length + 1 = l.length := by
  induction l with
  | nil => cases h
  | cons y rest ih =>
      by_cases hy : y = x
      · simp [listRemoveFirst, hy]
      · have hmem : x ∈ rest := by
          cases h with
          | head => exact absurd rfl hy
          | tail _ hm => exact hm
        simp [listRemoveFirst, hy, ih hmem]

theorem takeByPolicy_length (sched : Sched) (l : List Nat) (s : Nat)
    (rest : List Nat) (h : takeByPolicy sched l = some (s, rest)) :
    l.length = rest.length + 1 := by
  cases sched with
  | fifo =>
      cases l with
      | nil => simp [takeByPolicy] at h
      | cons a t =>
          simp only [takeByPolicy, Option.some_inj] at h
          obtain ⟨rfl, rfl⟩ := Prod.mk.injEq a t s rest ▸ And.intro (congrArg Prod.fst h) (congrArg Prod.snd h)
          simp
  | lifo =>
      cases l with
      | nil => simp [takeByPolicy] at h
      | cons a t =>
          simp only [takeByPolicy, Option.map_eq_some'] at h
          obtain ⟨b, hb, hpair⟩ := h
          have hrest : rest = (a :: t).dropLast := by
            have := congrArg Prod.snd hpair
            simpa using this.symm
          subst hrest
          simp [List.length_dropLast]

/-- One pool operation of the kind the claim ranges over.  An acquire
that is granted a new connection includes the synchronous push of the
newly created socket onto the active list that Agent.createConnection
performs right away. -/
inductive PoolOp
  | acquire (req : Nat) (name : String) (newSock : Nat)
  | release (sock : Nat) (name : String)
  | closeRemove (sock : Nat) (name : String)
deriving DecidableEq, Repr

/-- Applies one pool operation to the pool state. -/
def applyPoolOp (ag : Agent) (st : PoolState) : PoolOp → PoolState
  | PoolOp.acquire req name newSock =>
      match addRequest ag st req name with
      | (st1, Grant.newConnection) => createConnectionPush st1 newSock name
      | (st1, _) => st1
  | PoolOp.release sock name => (releaseSocket ag st sock name).1
  | PoolOp.closeRemove sock name => removeSocketOnClose st sock name

/-- Runs a sequence of pool operations in order. -/
def runPool (ag : Agent) (st : PoolState) : List PoolOp → PoolState
  | [] => st
  | op :: ops => runPool ag (applyPoolOp ag st op) ops

/-- A release call is well-formed when it releases a socket currently on
the active list of its key, which is how the runtime calls it. -/
def opOk (st : PoolState) : PoolOp → Bool
  | PoolOp.release sock name => (activeOf st name).contains sock
  | _ => true

/-- A sequence of pool operations is well-formed when every release in
it is well-formed in the state it executes in. -/
def poolOk (ag : Agent) (st : PoolState) : List PoolOp → Bool
  | [] => true
  | op :: ops => opOk st op && poolOk ag (applyPoolOp ag st op) ops

/-- The counting invariant the code actually maintains: the global
counter equals the active sockets plus the free sockets. -/
def poolInvariant (st : PoolState) : Prop :=
  st.totalSockets = (sumSizes st.sockets : Int) + (sumSizes st.freeSockets : Int)

instance (st : PoolState) : Decidable (poolInvariant st) := by
  unfold poolInvariant; infer_instance

/-- First half of Agent.releaseSocket: removal of the socket from the
active list of the key. -/
def removeActive (st : PoolState) (sock : Nat) (name : String) : PoolState :=
  match alistGet st.sockets name with
  | some l =>
      let l1 := listRemoveFirst l sock
      if l1.isEmpty then { st with sockets := alistDel st.sockets name }
      else { st with sockets := alistSet st.sockets name l1 }
  | none => st

/-- Second half of Agent.releaseSocket: waiter hand-off or keep-alive
pooling or close. -/
def releaseFinish (ag : Agent) (st1 : PoolState) (sock : Nat) (name : String) :
    PoolState × ReleaseAction :=
  match alistGet st1.requests name with
  | some (req :: restq) =>
      let st2 :=
        if restq.isEmpty then { st1 with requests := alistDel st1.requests name }
        else { st1 with requests := alistSet st1.requests name restq }
      let socks := alistSet st2.sockets name (((alistGet st2.sockets name).getD []) ++ [sock])
      ({ st2 with sockets := socks }, ReleaseAction.handedToWaiter req)
  | _ =>
      if ag.keepAlive && keepSocketAlive sock then
        let freeL := (alistGet st1.freeSockets name).getD []
        if freeL.length < ag.maxFreeSockets then
          ({ st1 with freeSockets := alistSet st1.freeSockets name (freeL ++ [sock]) },
           ReleaseAction.pooledFree)
        else
          ({ st1 with totalSockets := st1.totalSockets - 1 },
           ReleaseAction.closedSocket)
      else
        ({ st1 with totalSockets := st1.totalSockets - 1 },
         ReleaseAction.closedSocket)

theorem releaseSocket_eq_phases (ag : Agent) (st : PoolState) (sock : Nat)
    (name : String) :
    releaseSocket ag st sock name = releaseFinish ag (removeActive st sock name) sock name := rfl

theorem removeActive_sums (st : PoolState) (sock : Nat) (name : String)
    (hmem : sock ∈ activeOf st name) :
    sumSizes (removeActive st sock name).sockets + 1 = sumSizes st.sockets ∧
    (removeActive st sock name).freeSockets = st.freeSockets ∧
    (removeActive st sock name).requests = st.requests ∧
    (removeActive st sock name).totalSockets = st.totalSockets := by
  cases hs : alistGet st.sockets name with
  | none =>
      unfold activeOf at hmem
      rw [hs] at hmem
      cases hmem
  | some l =>
      unfold activeOf at hmem
      rw [hs] at hmem
      simp only [Option.getD_some] at hmem
      have hlen := listRemoveFirst_length l sock hmem
      by_cases hemp : (listRemoveFirst l sock).isEmpty
      · have hnil : listRemoveFirst l sock = [] := by
          simpa [List.isEmpty_iff] using hemp
        have hdel := sumSizes_alistDel st.sockets name
        rw [hs] at hdel
        simp only [Option.getD_some] at hdel
        have hlen1 : l.length = 1 := by
          rw [hnil] at hlen
          exact (by simpa using hlen : 1 = l.length).symm
        refine ⟨?_, ?_, ?_, ?_⟩ <;> simp [removeActive, hs, hemp]
        omega
      · have hne : (listRemoveFirst l sock).isEmpty = false := by simpa using hemp
        have hset := sumSizes_alistSet st.sockets name (listRemoveFirst l sock)
        rw [hs] at hset
        simp only [Option.getD_some] at hset
        refine ⟨?_, ?_, ?_, ?_⟩ <;> simp [removeActive, hs, hne]
        omega

theorem releaseFinish_invariant (ag : Agent) (st1 : PoolState) (sock : Nat)
    (name : String)
    (h : st1.totalSockets = (sumSizes st1.sockets : Int) + sumSizes st1.freeSockets + 1) :
    poolInvariant ((releaseFinish ag st1 sock name).1) := by
  cases hr : alistGet st1.requests name with
  | none =>
      by_cases hka : (ag.keepAlive && keepSocketAlive sock) = true
      · by_cases hcap : ((alistGet st1.freeSockets name).getD []).length < ag.maxFreeSockets
        · have hset := sumSizes_alistSet st1.freeSockets name
            (((alistGet st1.freeSockets name).getD []) ++ [sock])
          simp only [List.length_append, List.length_cons, List.length_nil] at hset
          unfold poolInvariant
          simp [releaseFinish, hr, hka, hcap]
          omega
        · unfold poolInvariant
          simp [releaseFinish, hr, hka, hcap]
          omega
      · unfold poolInvariant
        simp only [releaseFinish, hr, Bool.not_eq_true] at hka ⊢
        simp [hka]
        omega
  | some ql =>
      cases ql with
      | nil =>
          by_cases hka : (ag.keepAlive && keepSocketAlive sock) = true
          · by_cases hcap : ((alistGet st1.freeSockets name).getD []).length < ag.maxFreeSockets
            · have hset := sumSizes_alistSet st1.freeSockets name
                (((alistGet st1.freeSockets name).getD []) ++ [sock])
              simp only [List.length_append, List.length_cons, List.length_nil] at hset
              unfold poolInvariant
              simp [releaseFinish, hr, hka, hcap]
              omega
            · unfold poolInvariant
              simp [releaseFinish, hr, hka, hcap]
              omega
          · unfold poolInvariant
            simp only [releaseFinish, hr, Bool.not_eq_true] at hka ⊢
            simp [hka]
            omega
      | cons req restq =>
          have hset := sumSizes_alistSet st1.sockets name
            (((alistGet st1.sockets name).getD []) ++ [sock])
          simp only [List.length_append, List.length_cons, List.length_nil] at hset
          by_cases hq : restq.isEmpty
          · unfold poolInvariant
            simp [releaseFinish, hr, hq]
            omega
          · have hqne : restq.isEmpty = false := by simpa using hq
            unfold poolInvariant
            simp [releaseFinish, hr, hqne]
            omega

theorem poolInvariant_release (ag : Agent) (st : PoolState) (sock : Nat)
    (name : String) (hwf : sock ∈ activeOf st name) (h : poolInvariant st) :
    poolInvariant ((releaseSocket ag st sock name).1) := by
  rw [releaseSocket_eq_phases]
  apply releaseFinish_invariant
  obtain ⟨hA, hF, _, hT⟩ := removeActive_sums st sock name hwf
  unfold poolInvariant at h
  rw [hT, hF, h]
  omega

theorem poolInvariant_acquire (ag : Agent) (st : PoolState) (req newSock : Nat)
    (name : String) (h : poolInvariant st) :
    poolInvariant (applyPoolOp ag st (PoolOp.acquire req name newSock)) := by
  unfold applyPoolOp
  cases htake : takeByPolicy ag.scheduling ((alistGet st.freeSockets name).getD []) with
  | some pr =>
      obtain ⟨sock, rest⟩ := pr
      have hlen := takeByPolicy_length ag.scheduling _ sock rest htake
      have hsetA := sumSizes_alistSet st.sockets name
        (((alistGet st.sockets name).getD []) ++ [sock])
      simp only [List.length_append, List.length_cons, List.length_nil] at hsetA
      unfold poolInvariant at h ⊢
      by_cases hrest : rest.isEmpty
      · have hrnil : rest = [] := by simpa [List.isEmpty_iff] using hrest
        subst hrnil
        have hdelF := sumSizes_alistDel st.freeSockets name
        simp only [List.length_nil, Nat.zero_add] at hlen
        simp [addRequest, htake, hrest]
        omega
      · have hneF : rest.isEmpty = false := by simpa using hrest
        have hsetF := sumSizes_alistSet st.freeSockets name rest
        simp [addRequest, htake, hneF]
        omega
  | none =>
      by_cases hcond : (ltCap (((alistGet st.sockets name).getD []).length : Int) ag.maxSockets &&
          ltCap st.totalSockets ag.maxTotalSockets) = true
      · cases hs : alistGet st.sockets name with
        | none =>
            have hset0 := sumSizes_alistSet st.sockets name []
            rw [hs] at hset0
            simp only [Option.getD_none, List.length_nil] at hset0
            have hget0 : alistGet (alistSet st.sockets name []) name = some ([] : List Nat) :=
              alistGet_set_self st.sockets name []
            have hset1 := sumSizes_alistSet (alistSet st.sockets name []) name
              ((((alistGet (alistSet st.sockets name []) name).getD [])) ++ [newSock])
            rw [hget0] at hset1
            simp only [Option.getD_some, List.nil_append, List.length_cons,
              List.length_nil] at hset1
            rw [hs] at hcond
            simp only [Option.getD_none, List.length_nil, Nat.cast_zero] at hcond
            unfold poolInvariant at h ⊢
            simp [addRequest, htake, hcond, hs, createConnectionPush, hget0]
            omega
        | some l =>
            have hset1 := sumSizes_alistSet st.sockets name (l ++ [newSock])
            rw [hs] at hset1
            simp only [Option.getD_some, List.length_append, List.length_cons,
              List.length_nil] at hset1
            rw [hs] at hcond
            simp only [Option.getD_some] at hcond
            unfold poolInvariant at h ⊢
            simp [addRequest, htake, hcond, hs, createConnectionPush]
            omega
      · have hcondf : (ltCap (((alistGet st.sockets name).getD []).length : Int) ag.maxSockets &&
            ltCap st.totalSockets ag.maxTotalSockets) = false := by
          simpa using hcond
        unfold poolInvariant at h ⊢
        simp [addRequest, htake, hcondf]
        omega

theorem poolInvariant_closeRemove (st : PoolState) (sock : Nat) (name : String)
    (h : poolInvariant st) :
    poolInvariant (removeSocketOnClose st sock name) := by
  unfold poolInvariant at h
  cases hs : alistGet st.sockets name with
  | none =>
      cases hf : alistGet st.freeSockets name with
      | none =>
          unfold poolInvariant
          simp [removeSocketOnClose, hs, hf]
          omega
      | some lf =>
          by_cases hmf : sock ∈ lf
          · have hlenf := listRemoveFirst_length lf sock hmf
            have hsetf := sumSizes_alistSet st.freeSockets name (listRemoveFirst lf sock)
            rw [hf] at hsetf
            simp only [Option.getD_some] at hsetf
            unfold poolInvariant
            simp [removeSocketOnClose, hs, hf, hmf]
            omega
          · unfold poolInvariant
            simp [removeSocketOnClose, hs, hf, hmf]
            omega
  | some ls =>
      by_cases hms : sock ∈ ls
      · have hlens := listRemoveFirst_length ls sock hms
        have hsets := sumSizes_alistSet st.sockets name (listRemoveFirst ls sock)
        rw [hs] at hsets
        simp only [Option.getD_some] at hsets
        cases hf : alistGet st.freeSockets name with
        | none =>
            unfold poolInvariant
            simp [removeSocketOnClose, hs, hms, hf]
            omega
        | some lf =>
            by_cases hmf : sock ∈ lf
            · have hlenf := listRemoveFirst_length lf sock hmf
              have hsetf := sumSizes_alistSet st.freeSockets name (listRemoveFirst lf sock)
              rw [hf] at hsetf
              simp only [Option.getD_some] at hsetf
              unfold poolInvariant
              simp [removeSocketOnClose, hs, hms, hf, hmf]
              omega
            · unfold poolInvariant
              simp [removeSocketOnClose, hs, hms, hf, hmf]
              omega
      · cases hf : alistGet st.freeSockets name with
        | none =>
            unfold poolInvariant
            simp [removeSocketOnClose, hs, hms, hf]
            omega
        | some lf =>
            by_cases hmf : sock ∈ lf
            · have hlenf := listRemoveFirst_length lf sock hmf
              have hsetf := sumSizes_alistSet st.freeSockets name (listRemoveFirst lf sock)
              rw [hf] at hsetf
              simp only [Option.getD_some] at hsetf
              unfold poolInvariant
              simp [removeSocketOnClose, hs, hms, hf, hmf]
              omega
            · unfold poolInvariant
              simp [removeSocketOnClose, hs, hms, hf, hmf]
              omega

/-- Counterexample to C7 as stated: the well-formed operation sequence
acquire then release (under a keep-alive agent) reaches a state whose
global counter is 1 while the per-key active lists are all empty - the
counter does not equal the sum of active-list sizes, because the free
socket is still counted. -/
theorem pool_counter_differs_from_active_sum :
    poolOk ⟨none, none, 256, true, Sched.lifo⟩ emptyPool
      [PoolOp.acquire 1 "k" 10, PoolOp.release 10 "k"] = true ∧
    (runPool ⟨none, none, 256, true, Sched.lifo⟩ emptyPool
      [PoolOp.acquire 1 "k" 10, PoolOp.release 10 "k"]).totalSockets ≠
      (sumSizes (runPool ⟨none, none, 256, true, Sched.lifo⟩ emptyPool
        [PoolOp.acquire 1 "k" 10, PoolOp.release 10 "k"]).sockets : Int) := by
  refine ⟨by decide, by decide⟩

/-- C7 amended: after any well-formed sequence of pool operations
(acquires, releases of currently active sockets, and socket-close
removals) starting from a state satisfying it, the global counter
equals the sum of the per-key active-list sizes plus the sum of the
per-key free-list sizes. -/
theorem pool_counter_equals_active_plus_free
    (ag : Agent) (ops : List PoolOp) (st : PoolState)
    (hwf : poolOk ag st ops = true) (h0 : poolInvariant st) :
    poolInvariant (runPool ag st ops) := by
  induction ops generalizing st with
  | nil => exact h0
  | cons op rest ih =>
      rw [poolOk, Bool.and_eq_true] at hwf
      refine ih (applyPoolOp ag st op) hwf.2 ?_
      cases op with
      | acquire req name newSock => exact poolInvariant_acquire ag st req newSock name h0
      | release sock name =>
          have hmem : sock ∈ activeOf st name := by
            have := hwf.1
            simpa [opOk] using this
          exact poolInvariant_release ag st sock name hmem h0
      | closeRemove sock name => exact poolInvariant_closeRemove st sock name h0

/-- Witness for the amended C7: the acquire-then-release run above ends
with counter 1 = 0 active + 1 free. -/
theorem pool_counter_equals_active_plus_free_witness :
    poolInvariant (runPool ⟨none, none, 256, true, Sched.lifo⟩ emptyPool
      [PoolOp.acquire 1 "k" 10, PoolOp.release 10 "k"]) :=
  pool_counter_equals_active_plus_free ⟨none, none, 256, true, Sched.lifo⟩
    [PoolOp.acquire 1 "k" 10, PoolOp.release 10 "k"] emptyPool
    (by decide) (by decide)

/-! ### Agent.getName pool-key derivation (src/src/http.ts) -/

/-- The request-option fields Agent.getName reads. -/
structure RequestOptions where
  host : Option String
  hostname : Option String
  port : Option Nat
  protocol : Option String
  localAddress : Option String
  family : Option Nat
deriving DecidableEq, Repr

/-- JS string||fallback: an absent or empty string is falsy. -/
def jsOrS (a : Option String) (b : String) : String :=
  match a with
  | some s => if s = "" then b else s
  | none => b

/-- JS number||fallback: an absent or zero number is falsy. -/
def jsOrN (a : Option Nat) (b : Nat) : Nat :=
  match a with
  | some n => if n = 0 then b else n
  | none => b

/-- Agent.getName: builds the pool key host:port: then appends
localAddress: and family: when present; no normalization is applied to
any component. -/
def getName (o : RequestOptions) : String :=
  let name := jsOrS o.host (jsOrS o.hostname "localhost") ++ ":" ++
    toString (jsOrN o.port (if o.protocol = some "https:" then 443 else 80)) ++ ":"
  let name :=
    match o.localAddress with
    | some la => if la = "" then name else name ++ la ++ ":"
    | none => name
  match o.family with
  | some f => if f = 0 then name else name ++ toString f ++ ":"
  | none => name

/-- The host-independent tail of a pool key. -/
def getNameTail (o : RequestOptions) : String :=
  let tail := ":" ++
    toString (jsOrN o.port (if o.protocol = some "https:" then 443 else 80)) ++ ":"
  let tail :=
    match o.localAddress with
    | some la => if la = "" then tail else tail ++ (la ++ ":")
    | none => tail
  match o.family with
  | some f => if f = 0 then tail else tail ++ (toString f ++ ":")
  | none => tail

theorem getName_host_append (o : RequestOptions) (h : String) (hne : h ≠ "") :
    getName { o with host := some h } = h ++ getNameTail o := by
  unfold getName getNameTail
  simp only [jsOrS, hne, if_false]
  cases o.localAddress with
  | none =>
      cases o.family with
      | none => simp [String.append_assoc]
      | some f => by_cases hf : f = 0 <;> simp [hf, String.append_assoc]
  | some la =>
      by_cases hla : la = "" <;>
      · cases o.family with
        | none => simp [hla, String.append_assoc]
        | some f => by_cases hf : f = 0 <;> simp [hla, hf, String.append_assoc]

/-- Counterexample to C8: two request option sets that differ only in
the letter case of the host produce different pool keys - getName never
lower-cases the host, so the requests do not share an entry set. -/
theorem getName_not_case_insensitive :
    getName ⟨some "EXAMPLE.com", none, none, none, none, none⟩ ≠
      getName ⟨some "example.com", none, none, none, none, none⟩ := by decide

/-- C8 amended: pool key derivation applies no normalization at all to
the host: the key embeds the host verbatim, so any two option sets that
agree on everything but the host string - in particular two hosts that
differ only in letter case - receive distinct keys and distinct
active/free/waiter entry sets. -/
theorem getName_embeds_host_verbatim (o : RequestOptions) (h1 h2 : String)
    (hne1 : h1 ≠ "") (hne2 : h2 ≠ "") (hne : h1 ≠ h2) :
    getName { o with host := some h1 } = h1 ++ getNameTail o ∧
    getName { o with host := some h2 } = h2 ++ getNameTail o ∧
    getName { o with host := some h1 } ≠ getName { o with host := some h2 } := by
  refine ⟨getName_host_append o h1 hne1, getName_host_append o h2 hne2, ?_⟩
  intro heq
  rw [getName_host_append o h1 hne1, getName_host_append o h2 hne2] at heq
  apply hne
  have hdata : h1.data ++ (getNameTail o).data = h2.data ++ (getNameTail o).data := by
    have := congrArg String.data heq
    simpa [String.data_append] using this
  exact String.ext (List.append_cancel_right hdata)

/-- Witness for the amended C8 at hosts EXAMPLE.com and example.com
(differing only in case) with all other options absent. -/
theorem getName_embeds_host_verbatim_witness :
    getName ⟨some "EXAMPLE.com", none, none, none, none, none⟩ =
      "EXAMPLE.com" ++ getNameTail ⟨some "EXAMPLE.com", none, none, none, none, none⟩ ∧
    getName ⟨some "example.com", none, none, none, none, none⟩ =
      "example.com" ++ getNameTail ⟨some "example.com", none, none, none, none, none⟩ ∧
    getName ⟨some "EXAMPLE.com", none, none, none, none, none⟩ ≠
      getName ⟨some "example.com", none, none, none, none, none⟩ := by
  have h := getName_embeds_host_verbatim
    ⟨some "placeholder", none, none, none, none, none⟩
    "EXAMPLE.com" "example.com" (by decide) (by decide) (by decide)
  exact h

/-! ### HTTP framer feed loops (src/src/http.ts)

The Rust parser core behind net_http_parser_feed is not part of the
audited sources; only its C++ wrapper and the JS feed loops are.  The
parser is therefore modelled from the spec at the granularity the JS
layer observes: a byte stream is abstracted into the sequence of parsed
message results it produces, the parser buffers messages it has not yet
reported, and each feed call reports at most one result.  The JS loops
and handlers (Server._setupHttpConnection onData and
ClientRequest._attachSocketListeners onData) are transcribed from the
source.
-/

/-- One parsed result as the JS layer sees it after JSON.parse: the
is_headers/is_connect flags, status, the upgrade/expect header
indicators, body bytes and the complete flag. -/
structure Msg where
  isHeaders : Bool
  status : Nat
  isConnect : Bool
  hasUpgradeHeader : Bool
  expect100 : Bool
  body : List Nat
  complete : Bool
deriving DecidableEq, Repr

/-- Modelled from the spec: CONNECT requests and responses, and 101
Upgrade responses, terminate HTTP framing immediately on header
completion.  The connectExchange flag says the response framer belongs
to a CONNECT request/response exchange. -/
def terminalTrigger (connectExchange : Bool) (m : Msg) : Bool :=
  m.isHeaders && (m.isConnect || m.status == 101 ||
    (connectExchange && decide (200 ≤ m.status) && decide (m.status < 300)))

/-- Modelled from the spec: the parser state is either active with a
buffer of not-yet-reported results, or terminal (retired framer). -/
inductive FrState
  | active (buffered : List Msg)
  | terminal
deriving DecidableEq, Repr

/-- Result of one parser.feed call as the JS loop classifies it: a
parsed result string, the empty no-progress string, or an ERROR:
string. -/
inductive FeedOut
  | msg (m : Msg)
  | noProgress
  | errorOut (code : Nat)
deriving DecidableEq, Repr

/-- Modelled from the spec: the Rust parser core (net_http_parser_feed,
not under the audited sources) appends the input to its buffer and
reports the first buffered result, retiring itself right after
reporting a header completion that terminates framing; a retired framer
reports no progress forever. -/
def framerFeed (ce : Bool) : FrState → List Msg → FrState × FeedOut
  | FrState.terminal, _ => (FrState.terminal, FeedOut.noProgress)
  | FrState.active buf, input =>
      match buf ++ input with
      | [] => (FrState.active [], FeedOut.noProgress)
      | m :: rest =>
          (if terminalTrigger ce m then FrState.terminal else FrState.active rest,
           FeedOut.msg m)

/-- Externally visible effect of the client-side handleParsedResult. -/
inductive ClientEv
  | information (status : Nat)
  | continueEv
  | upgradeEv (status : Nat)
  | connectEv (status : Nat)
  | responseEv (status : Nat)
  | bodyPush (b : List Nat)
  | endPush
  | errorEmit
  | socketDestroy
deriving DecidableEq, Repr

/-- The ClientRequest state the onData closure reads and writes: the
parser, whether the data listener is still attached, whether this._res
exists, and whether the request method is CONNECT. -/
structure ClientConn where
  fr : FrState
  dataAttached : Bool
  hasRes : Bool
  methodIsConnect : Bool
deriving DecidableEq, Repr

/-- Body and completion processing shared by the tail of the client
handleParsedResult; on completion _finishResponse detaches the socket
listeners. -/
def clientBodyComplete (c : ClientConn) (m : Msg) (evs : List ClientEv) :
    ClientConn × List ClientEv :=
  let evs := if c.hasRes && !m.body.isEmpty then evs ++ [ClientEv.bodyPush m.body] else evs
  if c.hasRes && m.complete then
    ({ c with dataAttached := false }, evs ++ [ClientEv.endPush])
  else (c, evs)

/-- Client-side handleParsedResult on a parsed (non-error) result:
interim 1xx handling, then 101 and CONNECT-2xx detachment, then
response emission with body/completion processing. -/
def clientHandle (c : ClientConn) (m : Msg) : ClientConn × List ClientEv :=
  if m.isHeaders then
    if decide (100 ≤ m.status) && decide (m.status < 200) && !(m.status == 101) then
      if m.status == 100 then (c, [ClientEv.continueEv])
      else (c, [ClientEv.information m.status])
    else
      let c1 : ClientConn := { c with hasRes := true }
      if m.status == 101 then
        ({ c1 with dataAttached := false }, [ClientEv.upgradeEv m.status])
      else if c.methodIsConnect && decide (200 ≤ m.status) && decide (m.status < 300) then
        ({ c1 with dataAttached := false }, [ClientEv.connectEv m.status])
      else
        clientBodyComplete c1 m [ClientEv.responseEv m.status]
  else
    clientBodyComplete c m []

/-- The client onData feed loop: at most 100 parser.feed calls; an empty
or ERROR: result exits the loop (an ERROR: result is only logged); a
parsed result is handled and the loop continues on empty input. -/
def clientFeedLoop (ce : Bool) : Nat → ClientConn → List Msg → ClientConn × List ClientEv
  | 0, c, _ => (c, [])
  | n + 1, c, input =>
      match framerFeed ce c.fr input with
      | (fr1, FeedOut.noProgress) => ({ c with fr := fr1 }, [])
      | (fr1, FeedOut.errorOut _) => ({ c with fr := fr1 }, [])
      | (fr1, FeedOut.msg m) =>
          let hres := clientHandle { c with fr := fr1 } m
          let rest := clientFeedLoop ce n hres.1 []
          (rest.1, hres.2 ++ rest.2)

/-- One socket data event on the client side: the onData closure runs
only while the data listener is attached. -/
def clientOnData (ce : Bool) (c : ClientConn) (input : List Msg) :
    ClientConn × List ClientEv :=
  if c.dataAttached then clientFeedLoop ce 100 c input else (c, [])

/-- Externally visible effect of the server-side handleParsedResult. -/
inductive ServerEv
  | connectEv
  | upgradeEv
  | checkContinueEv
  | continue100Write
  | requestEv
  | bodyPush (b : List Nat)
  | endPush
  | errorEmit
  | socketDestroy
deriving DecidableEq, Repr

/-- The server connection state the onData closure reads and writes. -/
structure ServerConn where
  fr : FrState
  dataAttached : Bool
  hasReq : Bool
  hasConnectListener : Bool
  hasUpgradeListener : Bool
  hasCheckContinueListener : Bool
deriving DecidableEq, Repr

/-- Body and completion processing shared by the tail of the server
handleParsedResult. -/
def serverBodyComplete (s : ServerConn) (m : Msg) (evs : List ServerEv) :
    ServerConn × List ServerEv :=
  let evs := if s.hasReq && !m.body.isEmpty then evs ++ [ServerEv.bodyPush m.body] else evs
  if s.hasReq && m.complete then (s, evs ++ [ServerEv.endPush]) else (s, evs)

/-- Server-side handleParsedResult on a parsed (non-error) result:
CONNECT requests detach the data listener and either emit connect or
destroy the socket; otherwise a request is created, upgrade and
100-continue are handled, and body/completion processing follows. -/
def serverHandle (s : ServerConn) (m : Msg) : ServerConn × List ServerEv :=
  if m.isHeaders then
    if m.isConnect then
      let s1 : ServerConn := { s with dataAttached := false }
      if s.hasConnectListener then (s1, [ServerEv.connectEv])
      else (s1, [ServerEv.socketDestroy])
    else
      let s1 : ServerConn := { s with hasReq := true }
      if m.hasUpgradeHeader && s.hasUpgradeListener then (s1, [ServerEv.upgradeEv])
      else if m.expect100 then
        if s.hasCheckContinueListener then
          serverBodyComplete s1 m [ServerEv.checkContinueEv]
        else
          serverBodyComplete s1 m [ServerEv.continue100Write, ServerEv.requestEv]
      else
        serverBodyComplete s1 m [ServerEv.requestEv]
  else
    serverBodyComplete s m []

/-- The server onData feed loop, structurally identical to the client
loop. -/
def serverFeedLoop (ce : Bool) : Nat → ServerConn → List Msg → ServerConn × List ServerEv
  | 0, s, _ => (s, [])
  | n + 1, s, input =>
      match framerFeed ce s.fr input with
      | (fr1, FeedOut.noProgress) => ({ s with fr := fr1 }, [])
      | (fr1, FeedOut.errorOut _) => ({ s with fr := fr1 }, [])
      | (fr1, FeedOut.msg m) =>
          let hres := serverHandle { s with fr := fr1 } m
          let rest := serverFeedLoop ce n hres.1 []
          (rest.1, hres.2 ++ rest.2)

/-- One socket data event on the server side. -/
def serverOnData (ce : Bool) (s : ServerConn) (input : List Msg) :
    ServerConn × List ServerEv :=
  if s.dataAttached then serverFeedLoop ce 100 s input else (s, [])

/-- A plain progress result: no headers, no body bytes, no completion -
the pathological kind of result that keeps the feed loop spinning. -/
def plainMsg (m : Msg) : Bool :=
  !m.isHeaders && m.body.isEmpty && !m.complete

theorem clientHandle_plain (c : ClientConn) (m : Msg) (hp : plainMsg m = true) :
    clientHandle c m = (c, []) := by
  unfold plainMsg at hp
  simp only [Bool.and_eq_true, Bool.not_eq_true'] at hp
  obtain ⟨⟨hH, hB⟩, hC⟩ := hp
  simp [clientHandle, clientBodyComplete, hH, hB, hC]

theorem clientFeedLoop_plain_nil (ce : Bool) (n : Nat) (c : ClientConn)
    (buf : List Msg) (hfr : c.fr = FrState.active buf)
    (hplain : ∀ m ∈ buf, plainMsg m = true) :
    clientFeedLoop ce n c [] = ({ c with fr := FrState.active (buf.drop n) }, []) := by
  induction n generalizing c buf with
  | zero =>
      obtain ⟨fr, da, hr, mc⟩ := c
      simp only at hfr
      subst hfr
      simp [clientFeedLoop]
  | succ k ih =>
      cases buf with
      | nil =>
          simp [clientFeedLoop, framerFeed, hfr]
      | cons m rest =>
          have hm := hplain m (List.mem_cons_self m rest)
          have htrig : terminalTrigger ce m = false := by
            unfold plainMsg at hm
            simp only [Bool.and_eq_true, Bool.not_eq_true'] at hm
            simp [terminalTrigger, hm.1.1]
          have hfeed : framerFeed ce c.fr [] = (FrState.active rest, FeedOut.msg m) := by
            rw [hfr]
            simp [framerFeed, htrig]
          have hhandle := clientHandle_plain { c with fr := FrState.active rest } m hm
          have hrec := ih { c with fr := FrState.active rest } rest rfl
            (fun x hx => hplain x (List.mem_cons_of_mem m hx))
          simp [clientFeedLoop, hfeed, hhandle, hrec]

theorem clientFeedLoop_plain (ce : Bool) (k : Nat) (c : ClientConn)
    (buf input : List Msg) (hfr : c.fr = FrState.active buf)
    (hplain : ∀ m ∈ buf ++ input, plainMsg m = true) :
    clientFeedLoop ce (k + 1) c input =
      ({ c with fr := FrState.active ((buf ++ input).drop (k + 1)) }, []) := by
  cases hcat : buf ++ input with
  | nil =>
      simp [clientFeedLoop, framerFeed, hfr, hcat]
  | cons m rest =>
      have hm : plainMsg m = true := hplain m (by rw [hcat]; exact List.mem_cons_self m rest)
      have htrig : terminalTrigger ce m = false := by
        unfold plainMsg at hm
        simp only [Bool.and_eq_true, Bool.not_eq_true'] at hm
        simp [terminalTrigger, hm.1.1]
      have hfeed : framerFeed ce c.fr input = (FrState.active rest, FeedOut.msg m) := by
        rw [hfr]
        simp [framerFeed, hcat, htrig]
      have hhandle := clientHandle_plain { c with fr := FrState.active rest } m hm
      have hrec := clientFeedLoop_plain_nil ce k { c with fr := FrState.active rest } rest rfl
        (fun x hx => hplain x (by rw [hcat]; exact List.mem_cons_of_mem m hx))
      simp [clientFeedLoop, hfeed, hhandle, hrec]

theorem serverHandle_plain (s : ServerConn) (m : Msg) (hp : plainMsg m = true) :
    serverHandle s m = (s, []) := by
  unfold plainMsg at hp
  simp only [Bool.and_eq_true, Bool.not_eq_true'] at hp
  obtain ⟨⟨hH, hB⟩, hC⟩ := hp
  simp [serverHandle, serverBodyComplete, hH, hB, hC]

theorem serverFeedLoop_plain_nil (ce : Bool) (n : Nat) (s : ServerConn)
    (buf : List Msg) (hfr : s.fr = FrState.active buf)
    (hplain : ∀ m ∈ buf, plainMsg m = true) :
    serverFeedLoop ce n s [] = ({ s with fr := FrState.active (buf.drop n) }, []) := by
  induction n generalizing s buf with
  | zero =>
      obtain ⟨fr, da, hr, hc, hu, hcc⟩ := s
      simp only at hfr
      subst hfr
      simp [serverFeedLoop]
  | succ k ih =>
      cases buf with
      | nil =>
          simp [serverFeedLoop, framerFeed, hfr]
      | cons m rest =>
          have hm := hplain m (List.mem_cons_self m rest)
          have htrig : terminalTrigger ce m = false := by
            unfold plainMsg at hm
            simp only [Bool.and_eq_true, Bool.not_eq_true'] at hm
            simp [terminalTrigger, hm.1.1]
          have hfeed : framerFeed ce s.fr [] = (FrState.active rest, FeedOut.msg m) := by
            rw [hfr]
            simp [framerFeed, htrig]
          have hhandle := serverHandle_plain { s with fr := FrState.active rest } m hm
          have hrec := ih { s with fr := FrState.active rest } rest rfl
            (fun x hx => hplain x (List.mem_cons_of_mem m hx))
          simp [serverFeedLoop, hfeed, hhandle, hrec]

theorem serverFeedLoop_plain (ce : Bool) (k : Nat) (s : ServerConn)
    (buf input : List Msg) (hfr : s.fr = FrState.active buf)
    (hplain : ∀ m ∈ buf ++ input, plainMsg m = true) :
    serverFeedLoop ce (k + 1) s input =
      ({ s with fr := FrState.active ((buf ++ input).drop (k + 1)) }, []) := by
  cases hcat : buf ++ input with
  | nil =>
      simp [serverFeedLoop, framerFeed, hfr, hcat]
  | cons m rest =>
      have hm : plainMsg m = true := hplain m (by rw [hcat]; exact List.mem_cons_self m rest)
      have htrig : terminalTrigger ce m = false := by
        unfold plainMsg at hm
        simp only [Bool.and_eq_true, Bool.not_eq_true'] at hm
        simp [terminalTrigger, hm.1.1]
      have hfeed : framerFeed ce s.fr input = (FrState.active rest, FeedOut.msg m) := by
        rw [hfr]
        simp [framerFeed, hcat, htrig]
      have hhandle := serverHandle_plain { s with fr := FrState.active rest } m hm
      have hrec := serverFeedLoop_plain_nil ce k { s with fr := FrState.active rest } rest rfl
        (fun x hx => hplain x (by rw [hcat]; exact List.mem_cons_of_mem m hx))
      simp [serverFeedLoop, hfeed, hhandle, hrec]

set_option maxRecDepth 80000 in
/-- Counterexample to C4: a single data event carrying 101 plain parsed
results drives each feed loop - the client one and the server one -
past its 100-iteration cap, and each loop simply stops: it emits no
event at all - no ParseError report, no socket destruction - and leaves
the unprocessed result buffered in a still-active parser session. -/
theorem feed_loop_cap_exceeded_silently :
    ((clientOnData false ⟨FrState.active [], true, false, false⟩
        (List.replicate 101 ⟨false, 0, false, false, false, [], false⟩)).2 = [] ∧
     ClientEv.errorEmit ∉ (clientOnData false ⟨FrState.active [], true, false, false⟩
        (List.replicate 101 ⟨false, 0, false, false, false, [], false⟩)).2 ∧
     ClientEv.socketDestroy ∉ (clientOnData false ⟨FrState.active [], true, false, false⟩
        (List.replicate 101 ⟨false, 0, false, false, false, [], false⟩)).2 ∧
     (clientOnData false ⟨FrState.active [], true, false, false⟩
        (List.replicate 101 ⟨false, 0, false, false, false, [], false⟩)).1.fr =
       FrState.active [⟨false, 0, false, false, false, [], false⟩]) ∧
    ((serverOnData false ⟨FrState.active [], true, false, false, false, false⟩
        (List.replicate 101 ⟨false, 0, false, false, false, [], false⟩)).2 = [] ∧
     ServerEv.errorEmit ∉ (serverOnData false ⟨FrState.active [], true, false, false, false, false⟩
        (List.replicate 101 ⟨false, 0, false, false, false, [], false⟩)).2 ∧
     ServerEv.socketDestroy ∉ (serverOnData false ⟨FrState.active [], true, false, false, false, false⟩
        (List.replicate 101 ⟨false, 0, false, false, false, [], false⟩)).2 ∧
     (serverOnData false ⟨FrState.active [], true, false, false, false, false⟩
        (List.replicate 101 ⟨false, 0, false, false, false, [], false⟩)).1.fr =
       FrState.active [⟨false, 0, false, false, false, [], false⟩]) := by
  refine ⟨⟨?_, ?_, ?_, ?_⟩, ⟨?_, ?_, ?_, ?_⟩⟩ <;> decide

/-- C4 amended: when a single data event drives either HTTP framer feed
loop (the server one in Server._setupHttpConnection or the client one
in ClientRequest._attachSocketListeners) past its 100-iteration cap,
the loop silently stops: no ParseError is reported, the connection is
not destroyed, the parser session is not terminated, and the results
beyond the cap are left buffered unprocessed. -/
theorem feed_loop_cap_is_silent_stop (ce : Bool) (c : ClientConn)
    (s : ServerConn) (input : List Msg)
    (hfrc : c.fr = FrState.active [])
    (hattc : c.dataAttached = true)
    (hfrs : s.fr = FrState.active [])
    (hatts : s.dataAttached = true)
    (hplain : ∀ m ∈ input, plainMsg m = true)
    (hlen : 100 < input.length) :
    (clientOnData ce c input).2 = [] ∧
    ClientEv.errorEmit ∉ (clientOnData ce c input).2 ∧
    ClientEv.socketDestroy ∉ (clientOnData ce c input).2 ∧
    (clientOnData ce c input).1.fr = FrState.active (input.drop 100) ∧
    (serverOnData ce s input).2 = [] ∧
    ServerEv.errorEmit ∉ (serverOnData ce s input).2 ∧
    ServerEv.socketDestroy ∉ (serverOnData ce s input).2 ∧
    (serverOnData ce s input).1.fr = FrState.active (input.drop 100) ∧
    input.drop 100 ≠ [] := by
  have hloopc := clientFeedLoop_plain ce 99 c [] input hfrc (by simpa using hplain)
  have hmainc : clientOnData ce c input =
      ({ c with fr := FrState.active (input.drop 100) }, []) := by
    unfold clientOnData
    rw [if_pos hattc]
    exact hloopc
  have hloops := serverFeedLoop_plain ce 99 s [] input hfrs (by simpa using hplain)
  have hmains : serverOnData ce s input =
      ({ s with fr := FrState.active (input.drop 100) }, []) := by
    unfold serverOnData
    rw [if_pos hatts]
    exact hloops
  rw [hmainc, hmains]
  refine ⟨rfl, by simp, by simp, rfl, rfl, by simp, by simp, rfl, ?_⟩
  intro hd
  have := congrArg List.length hd
  simp [List.length_drop] at this
  omega

/-- Witness for the amended C4: 101 plain results in one data event,
driving both the client and the server feed loop past the cap. -/
theorem feed_loop_cap_is_silent_stop_witness :
    (clientOnData false ⟨FrState.active [], true, true, false⟩
        (List.replicate 101 ⟨false, 0, false, false, false, [], false⟩)).2 = [] ∧
    ClientEv.errorEmit ∉ (clientOnData false ⟨FrState.active [], true, true, false⟩
        (List.replicate 101 ⟨false, 0, false, false, false, [], false⟩)).2 ∧
    ClientEv.socketDestroy ∉ (clientOnData false ⟨FrState.active [], true, true, false⟩
        (List.replicate 101 ⟨false, 0, false, false, false, [], false⟩)).2 ∧
    (clientOnData false ⟨FrState.active [], true, true, false⟩
        (List.replicate 101 ⟨false, 0, false, false, false, [], false⟩)).1.fr =
      FrState.active ((List.replicate 101
        (⟨false, 0, false, false, false, [], false⟩ : Msg)).drop 100) ∧
    (serverOnData false ⟨FrState.active [], true, true, false, false, false⟩
        (List.replicate 101 ⟨false, 0, false, false, false, [], false⟩)).2 = [] ∧
    ServerEv.errorEmit ∉ (serverOnData false ⟨FrState.active [], true, true, false, false, false⟩
        (List.replicate 101 ⟨false, 0, false, false, false, [], false⟩)).2 ∧
    ServerEv.socketDestroy ∉ (serverOnData false ⟨FrState.active [], true, true, false, false, false⟩
        (List.replicate 101 ⟨false, 0, false, false, false, [], false⟩)).2 ∧
    (serverOnData false ⟨FrState.active [], true, true, false, false, false⟩
        (List.replicate 101 ⟨false, 0, false, false, false, [], false⟩)).1.fr =
      FrState.active ((List.replicate 101
        (⟨false, 0, false, false, false, [], false⟩ : Msg)).drop 100) ∧
    (List.replicate 101 (⟨false, 0, false, false, false, [], false⟩ : Msg)).drop 100 ≠ [] :=
  feed_loop_cap_is_silent_stop false ⟨FrState.active [], true, true, false⟩
    ⟨FrState.active [], true, true, false, false, false⟩
    (List.replicate 101 ⟨false, 0, false, false, false, [], false⟩)
    rfl rfl rfl rfl (by decide) (by decide)

/-- C5: after header completion of a CONNECT request (server side), of a
2xx response to a CONNECT request (client side), or of a 101 Upgrade
response, the framer produces no further header, body or
message-complete events, whatever bytes arrive later: (i) reporting a
terminating header completion retires the framer; (ii) a retired framer
reports no progress on any input; (iii-iv) both feed loops produce no
event at all from a retired framer; (v-vii) the JS handlers detach the
data listener on 101, on CONNECT-2xx (client) and on CONNECT requests
(server); (viii-ix) with the listener detached a data event reaches
neither loop. -/
theorem connect_and_upgrade_terminate_framing :
    (∀ (ce : Bool) (buf input rest : List Msg) (m : Msg),
      buf ++ input = m :: rest → terminalTrigger ce m = true →
      framerFeed ce (FrState.active buf) input = (FrState.terminal, FeedOut.msg m)) ∧
    (∀ (ce : Bool) (input : List Msg),
      framerFeed ce FrState.terminal input = (FrState.terminal, FeedOut.noProgress)) ∧
    (∀ (ce : Bool) (fuel : Nat) (c : ClientConn) (input : List Msg),
      c.fr = FrState.terminal → clientFeedLoop ce fuel c input = (c, [])) ∧
    (∀ (ce : Bool) (fuel : Nat) (s : ServerConn) (input : List Msg),
      s.fr = FrState.terminal → serverFeedLoop ce fuel s input = (s, [])) ∧
    (∀ (c : ClientConn) (m : Msg), m.isHeaders = true → m.status = 101 →
      (clientHandle c m).1.dataAttached = false) ∧
    (∀ (c : ClientConn) (m : Msg), m.isHeaders = true → c.methodIsConnect = true →
      200 ≤ m.status → m.status < 300 →
      (clientHandle c m).1.dataAttached = false) ∧
    (∀ (s : ServerConn) (m : Msg), m.isHeaders = true → m.isConnect = true →
      (serverHandle s m).1.dataAttached = false) ∧
    (∀ (ce : Bool) (c : ClientConn) (input : List Msg), c.dataAttached = false →
      clientOnData ce c input = (c, [])) ∧
    (∀ (ce : Bool) (s : ServerConn) (input : List Msg), s.dataAttached = false →
      serverOnData ce s input = (s, [])) := by
  refine ⟨?_, ?_, ?_, ?_, ?_, ?_, ?_, ?_, ?_⟩
  · intro ce buf input rest m hcat htrig
    simp [framerFeed, hcat, htrig]
  · intro ce input
    rfl
  · intro ce fuel c input hterm
    obtain ⟨fr, da, hr, mc⟩ := c
    simp only at hterm
    subst hterm
    cases fuel <;> simp [clientFeedLoop, framerFeed]
  · intro ce fuel s input hterm
    obtain ⟨fr, da, hr, hc, hu, hcc⟩ := s
    simp only at hterm
    subst hterm
    cases fuel <;> simp [serverFeedLoop, framerFeed]
  · intro c m hH h101
    simp [clientHandle, hH, h101]
  · intro c m hH hmc h200 h300
    have hn200 : ¬ m.status < 200 := by omega
    have hn101 : m.status ≠ 101 := by omega
    simp [clientHandle, hH, hmc, hn200, hn101, h200, h300]
  · intro s m hH hC
    by_cases hl : s.hasConnectListener <;> simp [serverHandle, hH, hC, hl]
  · intro ce c input hdet
    simp [clientOnData, hdet]
  · intro ce s input hdet
    simp [serverOnData, hdet]

/-- Witness for C5: a 101 response retires the framer and detaches the
client data listener; a retired framer session yields no event from a
later data delivery that contains a full second message; a CONNECT
request detaches the server data listener; a detached client produces
nothing. -/
theorem connect_and_upgrade_terminate_framing_witness :
    framerFeed false (FrState.active [])
        [⟨true, 101, false, true, false, [], false⟩] =
      (FrState.terminal, FeedOut.msg ⟨true, 101, false, true, false, [], false⟩) ∧
    (clientHandle ⟨FrState.terminal, true, false, false⟩
        ⟨true, 101, false, true, false, [], false⟩).1.dataAttached = false ∧
    clientFeedLoop false 100 ⟨FrState.terminal, true, true, false⟩
        [⟨true, 200, false, false, false, [1, 2], true⟩] =
      (⟨FrState.terminal, true, true, false⟩, []) ∧
    (serverHandle ⟨FrState.active [], true, false, true, false, false⟩
        ⟨true, 0, true, false, false, [], false⟩).1.dataAttached = false ∧
    clientOnData false ⟨FrState.active [], false, false, false⟩
        [⟨true, 200, false, false, false, [], true⟩] =
      (⟨FrState.active [], false, false, false⟩, []) := by
  refine ⟨?_, ?_, ?_, ?_, ?_⟩
  · exact connect_and_upgrade_terminate_framing.1 false [] _ [] _ rfl (by decide)
  · exact (connect_and_upgrade_terminate_framing.2.2.2.2.1) _ _ rfl rfl
  · exact (connect_and_upgrade_terminate_framing.2.2.1) false 100 _ _ rfl
  · exact (connect_and_upgrade_terminate_framing.2.2.2.2.2.2.1) _ _ rfl rfl
  · exact (connect_and_upgrade_terminate_framing.2.2.2.2.2.2.2.1) false _ _ rfl

/-! ### net.Server connection limiting (src/src/net.ts) -/

/-- Address information of an accepted socket as read for the drop
event payload. -/
structure AddrInfo where
  localAddress : String
  localPort : Nat
  localFamily : String
  remoteAddress : String
  remotePort : Nat
  remoteFamily : String
deriving DecidableEq, Repr

/-- Event emitted by the net.Server CONNECTION handler, plus the socket
destruction it may perform. -/
inductive NetServerEv
  | listening
  | dropEv (info : AddrInfo)
  | connectionEv (clientId : String)
  | sockDestroy (clientId : String)
deriving DecidableEq, Repr

/-- The net.Server fields the connection-limiting logic touches. -/
structure NetServerState where
  maxConnections : Nat
  nativeMaxConnections : Nat
  connections : Nat
  sockets : List String
deriving DecidableEq, Repr

/-- The maxConnections setter: stores the JS-side limit and forces the
native-side limit to 0 so every connection attempt reaches the JS
check. -/
def setMaxConnections (s : NetServerState) (v : Nat) : NetServerState :=
  { s with maxConnections := v, nativeMaxConnections := 0 }

/-- The CONNECTION event handler of the net.Server driver callback: a
success payload emits listening; a client id payload is rejected with a
drop event and an immediate socket destroy when the JS limit is set and
reached, and otherwise becomes a tracked connection emitting a
connection event.  The addrOf argument stands for the address lookup the
freshly wrapped socket performs against the native driver. -/
def onConnectionEvent (addrOf : String → AddrInfo) (s : NetServerState)
    (payload : String) : NetServerState × List NetServerEv :=
  if payload = "success" then (s, [NetServerEv.listening])
  else if payload ≠ "" then
    if 0 < s.maxConnections ∧ s.maxConnections ≤ s.connections then
      (s, [NetServerEv.dropEv (addrOf payload), NetServerEv.sockDestroy payload])
    else
      ({ s with sockets := s.sockets ++ [payload],
                connections := s.connections + 1 },
       [NetServerEv.connectionEv payload])
  else (s, [])

/-- C10: with maxConnections set to n greater than 0 and at least n
connections open, an accepted connection is rejected in the JS layer:
the handler emits a drop event carrying the address information of the
new socket followed by the destruction of that socket, emits no
connection event, and leaves the connection count and all server state
unchanged; and the maxConnections setter forces the native-side limit
to 0 while storing the JS-side limit. -/
theorem maxConnections_drops_excess_connections
    (addrOf : String → AddrInfo) (s : NetServerState) (payload : String)
    (v : Nat)
    (hp1 : payload ≠ "success") (hp2 : payload ≠ "")
    (hmax : 0 < s.maxConnections) (hfull : s.maxConnections ≤ s.connections) :
    (onConnectionEvent addrOf s payload).2 =
      [NetServerEv.dropEv (addrOf payload), NetServerEv.sockDestroy payload] ∧
    NetServerEv.connectionEv payload ∉ (onConnectionEvent addrOf s payload).2 ∧
    (onConnectionEvent addrOf s payload).1 = s ∧
    (onConnectionEvent addrOf s payload).1.connections = s.connections ∧
    (setMaxConnections s v).nativeMaxConnections = 0 ∧
    (setMaxConnections s v).maxConnections = v := by
  have hcond : (0 < s.maxConnections ∧ s.maxConnections ≤ s.connections) :=
    ⟨hmax, hfull⟩
  refine ⟨?_, ?_, ?_, ?_, rfl, rfl⟩ <;>
    simp [onConnectionEvent, hp1, hp2, hcond, setMaxConnections]

/-- Witness for C10: a server with limit 1 and one open connection drops
the accepted client 7. -/
theorem maxConnections_drops_excess_connections_witness :
    (onConnectionEvent (fun _ => ⟨"l", 1, "IPv4", "r", 2, "IPv4"⟩)
        ⟨1, 0, 1, ["6"]⟩ "7").2 =
      [NetServerEv.dropEv ⟨"l", 1, "IPv4", "r", 2, "IPv4"⟩, NetServerEv.sockDestroy "7"] ∧
    NetServerEv.connectionEv "7" ∉ (onConnectionEvent
        (fun _ => ⟨"l", 1, "IPv4", "r", 2, "IPv4"⟩) ⟨1, 0, 1, ["6"]⟩ "7").2 ∧
    (onConnectionEvent (fun _ => ⟨"l", 1, "IPv4", "r", 2, "IPv4"⟩)
        ⟨1, 0, 1, ["6"]⟩ "7").1 = ⟨1, 0, 1, ["6"]⟩ ∧
    (onConnectionEvent (fun _ => ⟨"l", 1, "IPv4", "r", 2, "IPv4"⟩)
        ⟨1, 0, 1, ["6"]⟩ "7").1.connections = 1 ∧
    (setMaxConnections ⟨1, 0, 1, ["6"]⟩ 1).nativeMaxConnections = 0 ∧
    (setMaxConnections ⟨1, 0, 1, ["6"]⟩ 1).maxConnections = 1 :=
  maxConnections_drops_excess_connections (fun _ => ⟨"l", 1, "IPv4", "r", 2, "IPv4"⟩)
    ⟨1, 0, 1, ["6"]⟩ "7" 1 (by decide) (by decide) (by decide) (by decide)

end NitroNet
